import Mathlib

/-!
Verification of the method-resolution subsystem of rust-analyzer
(`crates/ra_hir/src/ty/method_resolution.rs`), shallowly embedded in Lean.

External collaborators (the HIR database queries: module item collection,
module-tree navigation, autoderef, the trait-satisfiability oracle,
canonicalization, signature introspection) are modelled as fields of an
abstract `HirDatabase` structure, as the spec directs (§6).  Identities of
traits, functions, modules and impl blocks are natural numbers.
-/

/-- Type constructors of the semantic type representation (`TypeCtor`).
Only `adt` carries a defining crate; all other constructors (primitives,
references, tuples, function types, ...) have no owning crate. -/
inductive TypeCtor where
  | bool
  | char
  | int (bitness : Nat)
  | float (bitness : Nat)
  | adt (defId : Nat)
  | str
  | slice
  | array
  | rawPtr (mutable : Bool)
  | ref (mutable : Bool)
  | fnDef (defId : Nat)
  | fnPtr (arity : Nat)
  | never
  | tuple (arity : Nat)
  deriving DecidableEq, Repr

/-- Inference variables (`InferTy`). -/
inductive InferTy where
  | typeVar (v : Nat)
  | intVar (v : Nat)
  | floatVar (v : Nat)
  deriving DecidableEq, Repr

/-- Semantic type values (`Ty`).  `apply` is `Ty::Apply(ApplicationTy
{ ctor, parameters })`; `param`, `infer` and `unknown` are the other
shapes, none of which has a fingerprint. -/
inductive Ty where
  | apply (ctor : TypeCtor) (parameters : List Ty)
  | param (idx : Nat)
  | infer (v : InferTy)
  | unknown

/-- A substitution: an ordered list of type arguments (`Substs`). -/
abbrev Substs := List Ty

/-- A trait reference (`TraitRef`): a trait identity plus its substitution;
position 0 of the substitution is the Self type. -/
structure TraitRef where
  traitId : Nat
  substs : Substs

/-- An item of an impl block (`ImplItem`): a method or something else
(associated const, associated type). -/
inductive ImplItem where
  | method (f : Nat)
  | other (n : Nat)
  deriving DecidableEq, Repr

/-- An item declared by a trait (`TraitItem`). -/
inductive TraitItem where
  | function (f : Nat)
  | other (n : Nat)
  deriving DecidableEq, Repr

/-- The module tree of a crate: module identity plus child modules,
navigated by `module.children(db)` in the source. -/
inductive ModuleTree where
  | mk (moduleId : Nat) (children : List ModuleTree)

/-- The identity of an impl block within a crate: `(CrateModuleId, ImplId)`. -/
abbrev ImplRef := Nat × Nat

/-- The abstract database of external queries (`HirDatabase` plus the
introspection methods used by the subsystem). -/
structure HirDatabase where
  /-- `db.impls_in_module(module)`: impl ids declared directly in a module. -/
  implsInModule : Nat → List Nat
  /-- `impl_block.target_ty(db)`, keyed by module id and impl id. -/
  implTargetTy : Nat → Nat → Ty
  /-- `impl_block.target_trait_ref(db)` (its `trait_` component), keyed by
  module id and impl id; `none` for an inherent impl. -/
  implTargetTrait : Nat → Nat → Option Nat
  /-- `impl_block.items(db)`, keyed by module id and impl id. -/
  implItems : Nat → Nat → List ImplItem
  /-- `krate.root_module(db)`, as the whole module tree of the crate. -/
  rootModule : Nat → Option ModuleTree
  /-- `def_id.krate(db)` for an ADT definition id. -/
  adtKrate : Nat → Option Nat
  /-- `self.autoderef(db)`: the ordered finite deref chain of a type. -/
  autoderef : Ty → List Ty
  /-- `db.implements(trait_ref).is_some()`: the satisfiability oracle. -/
  implements : TraitRef → Bool
  /-- `canonicalize`: normalizes placeholder-variable identity inside the
  substitution of a probe trait reference (the trait itself is preserved). -/
  canonicalizeSubsts : Substs → Substs
  /-- `t.trait_data(db).items()`. -/
  traitItems : Nat → List TraitItem
  /-- `tr.generic_params(db).params_including_parent()`: the declared generic
  parameters of a trait, including parameters inherited from an enclosing
  scope; the first entry is the implicit Self parameter. -/
  traitParams : Nat → List Nat
  /-- `f.signature(db).name()`. -/
  fnName : Nat → String
  /-- `f.signature(db).has_self_param()`. -/
  fnHasSelf : Nat → Bool

/-- A lexical scope (`Resolver`): `resolver.traits_in_scope()`. -/
structure Resolver where
  traitsInScope : List Nat

/-- This is used as a key for indexing impls (`TyFingerprint`). -/
inductive TyFingerprint where
  | apply (ctor : TypeCtor)
  deriving DecidableEq, Repr

namespace TyFingerprint

/-- Creates a TyFingerprint for looking up an impl.  Only `Ty::Apply` types
have a fingerprint, and it records only the constructor. -/
def forImpl : Ty → Option TyFingerprint
  | Ty.apply ctor _ => some (TyFingerprint.apply ctor)
  | _ => none

end TyFingerprint

/-- Association-list counterpart of `FxHashMap<_, Vec<_>>.entry(k)
.or_insert_with(Vec::new).push(v)`: append `v` to the vector at key `k`,
creating the entry when absent. -/
def insertAppend {κ α : Type} [DecidableEq κ] (k : κ) (v : α) :
    List (κ × List α) → List (κ × List α)
  | [] => [(k, [v])]
  | (k', vs) :: rest =>
    if k' = k then (k', vs ++ [v]) :: rest else (k', vs) :: insertAppend k v rest

/-- Association-list counterpart of `map.get(&k)` flattened to a list
(`.into_iter().flat_map(|i| i.iter())`): the vector stored at `k`, or `[]`. -/
def getA {κ α : Type} [DecidableEq κ] (k : κ) : List (κ × List α) → List α
  | [] => []
  | (k', vs) :: rest => if k' = k then vs else getA k rest

/-- The per-crate impl index (`CrateImplBlocks`): fingerprint-keyed inherent
impls and trait-keyed trait impls. -/
structure CrateImplBlocks where
  krate : Nat
  impls : List (TyFingerprint × List ImplRef)
  implsByTrait : List (Nat × List ImplRef)

namespace CrateImplBlocks

/-- `CrateImplBlocks::lookup_impl_blocks`: fingerprint the type and return
the impl blocks indexed under that fingerprint, in stored order. -/
def lookupImplBlocks (cib : CrateImplBlocks) (ty : Ty) : List ImplRef :=
  match TyFingerprint.forImpl ty with
  | none => []
  | some f => getA f cib.impls

/-- `CrateImplBlocks::lookup_impl_blocks_for_trait`. -/
def lookupImplBlocksForTrait (cib : CrateImplBlocks) (tr : Nat) : List ImplRef :=
  getA tr cib.implsByTrait

end CrateImplBlocks

/-- The per-impl-block step of `CrateImplBlocks::collect_recursive`: resolve
the block's target type and optional target trait; a trait impl goes to the
trait-keyed map, an inherent impl goes to the fingerprint-keyed map when its
target type has a fingerprint, and is dropped otherwise. -/
def collectImpl (db : HirDatabase) (st : CrateImplBlocks) (moduleId implId : Nat) :
    CrateImplBlocks :=
  let targetTy := db.implTargetTy moduleId implId
  match db.implTargetTrait moduleId implId with
  | some tr =>
    { st with implsByTrait := insertAppend tr (moduleId, implId) st.implsByTrait }
  | none =>
    match TyFingerprint.forImpl targetTy with
    | some fp => { st with impls := insertAppend fp (moduleId, implId) st.impls }
    | none => st

mutual

/-- `CrateImplBlocks::collect_recursive`: process the impl blocks declared
directly in the module, then recurse into its children in order. -/
def collectRecursive (db : HirDatabase) (st : CrateImplBlocks) :
    ModuleTree → CrateImplBlocks
  | ModuleTree.mk moduleId children =>
    let st1 := (db.implsInModule moduleId).foldl
      (fun s implId => collectImpl db s moduleId implId) st
    collectList db st1 children

/-- The `for child in module.children(db)` loop of `collect_recursive`. -/
def collectList (db : HirDatabase) (st : CrateImplBlocks) :
    List ModuleTree → CrateImplBlocks
  | [] => st
  | t :: ts => collectList db (collectRecursive db st t) ts

end

/-- `CrateImplBlocks::impls_in_crate_query`: build the index for a crate
from empty maps by traversing the module tree from the root. -/
def implsInCrateQuery (db : HirDatabase) (krate : Nat) : CrateImplBlocks :=
  let st : CrateImplBlocks := { krate := krate, impls := [], implsByTrait := [] }
  match db.rootModule krate with
  | some tree => collectRecursive db st tree
  | none => st

/-- `db.impls_in_crate(krate)`: the memoized query; memoization is the
external substrate's concern, so in the pure model it is the query itself. -/
def implsInCrate (db : HirDatabase) (krate : Nat) : CrateImplBlocks :=
  implsInCrateQuery db krate

/-- `def_crate`: the owning crate of a type — only `Ty::Apply` of an ADT
constructor resolves to a crate. -/
def defCrate (db : HirDatabase) : Ty → Option Nat
  | Ty.apply (TypeCtor.adt defId) _ => db.adtKrate defId
  | _ => none

mutual

/-- The pre-order list of impl blocks of a module tree, in the exact
traversal order of `collect_recursive`. -/
def preorderImpls (db : HirDatabase) : ModuleTree → List ImplRef
  | ModuleTree.mk moduleId children =>
    (db.implsInModule moduleId).map (fun i => (moduleId, i))
      ++ preorderImplsList db children

/-- Pre-order impl blocks of a forest of module trees. -/
def preorderImplsList (db : HirDatabase) : List ModuleTree → List ImplRef
  | [] => []
  | t :: ts => preorderImpls db t ++ preorderImplsList db ts

end

/-- Whether an impl block is an inherent impl indexed under fingerprint
`fp`: no target trait, and the target type's fingerprint is `fp`. -/
def inherentKeyed (db : HirDatabase) (fp : TyFingerprint) (p : ImplRef) : Bool :=
  match db.implTargetTrait p.1 p.2 with
  | some _ => false
  | none =>
    match TyFingerprint.forImpl (db.implTargetTy p.1 p.2) with
    | some fp' => decide (fp' = fp)
    | none => false

/-- Whether a function passes the optional name filter:
`name.map_or(true, |name| sig.name() == name)`. -/
def nameMatches (db : HirDatabase) (name : Option String) (f : Nat) : Bool :=
  match name with
  | none => true
  | some n => db.fnName f = n

/-- `fresh_substs_for_trait`: Substs for a trait with the given Self type at
position 0 and a numbered type variable for every other declared generic
parameter (`params_including_parent().skip(1).enumerate()`).  The source
numbers each variable with `TypeVarId(i as u32)`; the `as u32` cast wraps,
modelled here as `% 2 ^ 32`. -/
def freshSubstsForTrait (db : HirDatabase) (tr : Nat) (selfTy : Ty) : Substs :=
  selfTy :: (((db.traitParams tr).drop 1).enum.map
    (fun p => Ty.infer (InferTy.typeVar (p.1 % 2 ^ 32))))

/-- The canonicalized probe trait reference built by
`iterate_trait_method_candidates` before querying the oracle: the trait with
`fresh_substs_for_trait` substs, canonicalized. -/
def probeRef (db : HirDatabase) (tr : Nat) (selfTy : Ty) : TraitRef :=
  { traitId := tr, substs := db.canonicalizeSubsts (freshSubstsForTrait db tr selfTy) }

/-- First-acceptance driver: apply `f` to each element in order and return
the first present result (the early-exit callback protocol). -/
def firstSome {α β : Type} (f : α → Option β) : List α → Option β
  | [] => none
  | a :: rest =>
    match f a with
    | some b => some b
    | none => firstSome f rest

section SearchDefs

variable {T : Type}

/-- The `for item in impl_block.items(db)` loop of
`iterate_inherent_methods`: invoke the callback on each method item passing
the name filter and declaring a self parameter; early-exit on acceptance. -/
def implItemsLoop (db : HirDatabase) (self : Ty) (name : Option String)
    (callback : Ty → Nat → Option T) : List ImplItem → Option T
  | [] => none
  | ImplItem.method f :: rest =>
    if nameMatches db name f && db.fnHasSelf f then
      match callback self f with
      | some result => some result
      | none => implItemsLoop db self name callback rest
    else implItemsLoop db self name callback rest
  | ImplItem.other _ :: rest => implItemsLoop db self name callback rest

/-- The `for impl_block in impls.lookup_impl_blocks(self)` loop of
`iterate_inherent_methods`. -/
def implBlocksLoop (db : HirDatabase) (self : Ty) (name : Option String)
    (callback : Ty → Nat → Option T) : List ImplRef → Option T
  | [] => none
  | b :: rest =>
    match implItemsLoop db self name callback (db.implItems b.1 b.2) with
    | some result => some result
    | none => implBlocksLoop db self name callback rest

/-- `Ty::iterate_inherent_methods`: resolve the owning crate (no crate — no
candidates), fetch its impl index, and scan the blocks matching the type's
fingerprint. -/
def Ty.iterateInherentMethods (db : HirDatabase) (self : Ty)
    (name : Option String) (callback : Ty → Nat → Option T) : Option T :=
  match defCrate db self with
  | none => none
  | some krate =>
    implBlocksLoop db self name callback
      ((implsInCrate db krate).lookupImplBlocks self)

/-- The `for item in data.items()` loop of
`iterate_trait_method_candidates`, carrying the `known_implemented` flag.
A failed satisfiability probe abandons the trait (`continue 'traits`). -/
def traitItemsLoop (db : HirDatabase) (self : Ty) (tr : Nat)
    (name : Option String) (callback : Ty → Nat → Option T) :
    List TraitItem → Bool → Option T
  | [], _ => none
  | TraitItem.function m :: rest, known =>
    if nameMatches db name m && db.fnHasSelf m then
      if known then
        match callback self m with
        | some result => some result
        | none => traitItemsLoop db self tr name callback rest true
      else
        if db.implements (probeRef db tr self) then
          match callback self m with
          | some result => some result
          | none => traitItemsLoop db self tr name callback rest true
        else none
    else traitItemsLoop db self tr name callback rest known
  | TraitItem.other _ :: rest, known =>
    traitItemsLoop db self tr name callback rest known

/-- The `'traits: for t in resolver.traits_in_scope()` loop. -/
def traitsLoop (db : HirDatabase) (self : Ty) (name : Option String)
    (callback : Ty → Nat → Option T) : List Nat → Option T
  | [] => none
  | tr :: rest =>
    match traitItemsLoop db self tr name callback (db.traitItems tr) false with
    | some result => some result
    | none => traitsLoop db self name callback rest

/-- `Ty::iterate_trait_method_candidates`: scan the traits in scope, lazily
probing satisfiability once per trait and offering its matching methods. -/
def Ty.iterateTraitMethodCandidates (db : HirDatabase) (self : Ty)
    (resolver : Resolver) (name : Option String)
    (callback : Ty → Nat → Option T) : Option T :=
  traitsLoop db self name callback resolver.traitsInScope

/-- The `for derefed_ty in self.autoderef(db)` loop of
`iterate_method_candidates`: inherent candidates first, then trait
candidates, early-exiting on the first acceptance. -/
def derefLoop (db : HirDatabase) (resolver : Resolver) (name : Option String)
    (callback : Ty → Nat → Option T) : List Ty → Option T
  | [] => none
  | derefedTy :: rest =>
    match Ty.iterateInherentMethods db derefedTy name callback with
    | some result => some result
    | none =>
      match Ty.iterateTraitMethodCandidates db derefedTy resolver name callback with
      | some result => some result
      | none => derefLoop db resolver name callback rest

/-- `Ty::iterate_method_candidates`: drive the autoderef sequence through
`derefLoop`. -/
def Ty.iterateMethodCandidates (db : HirDatabase) (self : Ty)
    (resolver : Resolver) (name : Option String)
    (callback : Ty → Nat → Option T) : Option T :=
  derefLoop db resolver name callback (db.autoderef self)

/-- The `for item in impl_block.items(db)` loop of `iterate_impl_items`
(no name or receiver filtering). -/
def implItemsAllLoop (callback : ImplItem → Option T) : List ImplItem → Option T
  | [] => none
  | item :: rest =>
    match callback item with
    | some result => some result
    | none => implItemsAllLoop callback rest

/-- The `for impl_block in impls.lookup_impl_blocks(&self)` loop of
`iterate_impl_items`. -/
def implBlocksAllLoop (db : HirDatabase) (callback : ImplItem → Option T) :
    List ImplRef → Option T
  | [] => none
  | b :: rest =>
    match implItemsAllLoop callback (db.implItems b.1 b.2) with
    | some result => some result
    | none => implBlocksAllLoop db callback rest

/-- `Ty::iterate_impl_items`: iterate all items of all impl blocks indexed
for the type, unfiltered. -/
def Ty.iterateImplItems (db : HirDatabase) (self : Ty)
    (callback : ImplItem → Option T) : Option T :=
  match defCrate db self with
  | none => none
  | some krate =>
    implBlocksAllLoop db callback ((implsInCrate db krate).lookupImplBlocks self)

/-- Instrumented `traitItemsLoop`: same control flow, additionally returning
the list of traits for which the satisfiability oracle was invoked (in
order) and the list of `(trait, method)` candidates offered to the
callback. -/
def traitItemsLoopI (db : HirDatabase) (self : Ty) (tr : Nat)
    (name : Option String) (callback : Ty → Nat → Option T) :
    List TraitItem → Bool → Option T × List Nat × List (Nat × Nat)
  | [], _ => (none, [], [])
  | TraitItem.function m :: rest, known =>
    if nameMatches db name m && db.fnHasSelf m then
      if known then
        match callback self m with
        | some result => (some result, [], [(tr, m)])
        | none =>
          let r := traitItemsLoopI db self tr name callback rest true
          (r.1, r.2.1, (tr, m) :: r.2.2)
      else
        if db.implements (probeRef db tr self) then
          match callback self m with
          | some result => (some result, [tr], [(tr, m)])
          | none =>
            let r := traitItemsLoopI db self tr name callback rest true
            (r.1, tr :: r.2.1, (tr, m) :: r.2.2)
        else (none, [tr], [])
    else traitItemsLoopI db self tr name callback rest known
  | TraitItem.other _ :: rest, known =>
    traitItemsLoopI db self tr name callback rest known

/-- Instrumented `traitsLoop`, concatenating the per-trait logs. -/
def traitsLoopI (db : HirDatabase) (self : Ty) (name : Option String)
    (callback : Ty → Nat → Option T) :
    List Nat → Option T × List Nat × List (Nat × Nat)
  | [] => (none, [], [])
  | tr :: rest =>
    let r := traitItemsLoopI db self tr name callback (db.traitItems tr) false
    match r.1 with
    | some result => (some result, r.2.1, r.2.2)
    | none =>
      let r2 := traitsLoopI db self name callback rest
      (r2.1, r.2.1 ++ r2.2.1, r.2.2 ++ r2.2.2)

/-- Instrumented `Ty::iterate_trait_method_candidates` over the scope's
trait list. -/
def Ty.iterateTraitMethodCandidatesI (db : HirDatabase) (self : Ty)
    (resolver : Resolver) (name : Option String)
    (callback : Ty → Nat → Option T) :
    Option T × List Nat × List (Nat × Nat) :=
  traitsLoopI db self name callback resolver.traitsInScope

end SearchDefs

/-- `Ty::lookup_method`: first method matching the name, with its derefed
receiver type. -/
def Ty.lookupMethod (db : HirDatabase) (self : Ty) (name : String)
    (resolver : Resolver) : Option (Ty × Nat) :=
  Ty.iterateMethodCandidates db self resolver (some name)
    (fun ty f => some (ty, f))

/-- The method items of an impl-block item list passing the name filter and
declaring a self parameter, in order. -/
def implItemsCandidates (db : HirDatabase) (name : Option String)
    (items : List ImplItem) : List Nat :=
  items.filterMap fun item =>
    match item with
    | ImplItem.method f =>
      if nameMatches db name f && db.fnHasSelf f then some f else none
    | ImplItem.other _ => none

/-- The function items of a trait-item list passing the name filter and
declaring a self parameter, in order. -/
def matchingFunctions (db : HirDatabase) (name : Option String)
    (items : List TraitItem) : List Nat :=
  items.filterMap fun item =>
    match item with
    | TraitItem.function m =>
      if nameMatches db name m && db.fnHasSelf m then some m else none
    | TraitItem.other _ => none

/-- The inherent-method candidates offered for a derefed type, in offer
order: the matching methods of every impl block indexed under the type's
fingerprint in its owning crate, in index order. -/
def inherentCandidates (db : HirDatabase) (self : Ty) (name : Option String) :
    List Nat :=
  match defCrate db self with
  | none => []
  | some krate =>
    ((implsInCrate db krate).lookupImplBlocks self).flatMap
      (fun b => implItemsCandidates db name (db.implItems b.1 b.2))

/-- The candidates one in-scope trait contributes for a derefed type: its
matching methods when the satisfiability probe succeeds, nothing when it
fails. -/
def traitItemsCandidates (db : HirDatabase) (self : Ty) (tr : Nat)
    (name : Option String) : List Nat :=
  if db.implements (probeRef db tr self) then
    matchingFunctions db name (db.traitItems tr)
  else []

/-- The trait-method candidates offered for a derefed type, in offer order:
per in-scope trait in scope order. -/
def traitCandidates (db : HirDatabase) (self : Ty) (name : Option String)
    (resolver : Resolver) : List Nat :=
  resolver.traitsInScope.flatMap (fun tr => traitItemsCandidates db self tr name)

/-- The full candidate stream of a method search: for each autoderef step in
order, the inherent candidates then the trait candidates of that derefed
type, each paired with the derefed receiver type. -/
def methodCandidates (db : HirDatabase) (self : Ty) (resolver : Resolver)
    (name : Option String) : List (Ty × Nat) :=
  (db.autoderef self).flatMap fun derefedTy =>
    (inherentCandidates db derefedTy name
      ++ traitCandidates db derefedTy name resolver).map (fun f => (derefedTy, f))

/-- Whether a type constructor is a nominal ADT (`TypeCtor::Adt`). -/
def isAdtCtor : TypeCtor → Bool
  | TypeCtor.adt _ => true
  | _ => false

/-- Module tree of the example crate: root module 0 with one child module 1. -/
def exTree : ModuleTree :=
  ModuleTree.mk 0 [ModuleTree.mk 1 []]

/-- A concrete database used to exercise the theorems: module 0 holds an
inherent impl of `struct S` (ADT 0) with method 0 `foo`; module 1 holds a
trait impl (of trait 7) and an impl whose target type has no fingerprint;
trait 7 (`Tr`, implemented everywhere) declares method 1 `go`; trait 8
(unimplemented) declares method 2 `go2`. -/
def exDB : HirDatabase where
  implsInModule := fun m => if m = 0 then [0] else if m = 1 then [0, 1] else []
  implTargetTy := fun m i =>
    if m = 1 then (if i = 1 then Ty.param 0 else Ty.apply (TypeCtor.adt 0) [])
    else Ty.apply (TypeCtor.adt 0) []
  implTargetTrait := fun m i => if m = 1 then (if i = 0 then some 7 else none) else none
  implItems := fun m _ =>
    if m = 0 then [ImplItem.method 0, ImplItem.other 5] else [ImplItem.method 1]
  rootModule := fun k => if k = 0 then some exTree else none
  adtKrate := fun _ => some 0
  autoderef := fun ty => [ty]
  implements := fun r => r.traitId == 7
  canonicalizeSubsts := fun s => s
  traitItems := fun t =>
    if t = 7 then [TraitItem.function 1, TraitItem.other 9]
    else if t = 8 then [TraitItem.function 2]
    else []
  traitParams := fun t => if t = 7 then [0, 1, 2] else [0]
  fnName := fun f => if f = 0 then "foo" else if f = 1 then "go" else "go2"
  fnHasSelf := fun _ => true

/-- Example scope with the unimplemented trait 8 before the implemented
trait 7. -/
def exScope : Resolver := Resolver.mk [8, 7]

/-- Example scope containing only trait 7. -/
def exScopeTr : Resolver := Resolver.mk [7]

/-- Example empty scope. -/
def exScopeEmpty : Resolver := Resolver.mk []

/-- Example receiver type with a non-ADT head (no owning crate). -/
def exS : Ty := Ty.apply TypeCtor.bool []

/-- An empty impl index for the example crate. -/
def exEmpty : CrateImplBlocks :=
  CrateImplBlocks.mk 0 [] []

/-- A small literal impl index: one inherent impl block indexed under the
fingerprint of ADT 0. -/
def exIndex : CrateImplBlocks :=
  CrateImplBlocks.mk 0 [(TyFingerprint.apply (TypeCtor.adt 0), [(0, 0)])] []

/-- The example database with every trait declaring 2^32 + 2 generic
parameters (Self included): enough for the 32-bit truncation of the
placeholder numbering to wrap. -/
def exDBWide : HirDatabase :=
  { exDB with traitParams := fun _ => List.replicate (2 ^ 32 + 2) 0 }

theorem firstSome_append {α β : Type} (f : α → Option β) (l₁ l₂ : List α) :
    firstSome f (l₁ ++ l₂) =
      match firstSome f l₁ with
      | some b => some b
      | none => firstSome f l₂ := by
  induction l₁ with
  | nil => simp [firstSome]
  | cons a rest ih =>
    simp only [List.cons_append, firstSome]
    cases f a <;> simp [ih]

theorem firstSome_map {α γ β : Type} (g : α → γ) (f : γ → Option β)
    (l : List α) : firstSome f (l.map g) = firstSome (fun a => f (g a)) l := by
  induction l with
  | nil => rfl
  | cons a rest ih =>
    simp only [List.map_cons, firstSome]
    cases f (g a) <;> simp [ih]

theorem firstSome_flatMap {α γ β : Type} (g : α → List γ) (f : γ → Option β)
    (l : List α) :
    firstSome f (l.flatMap g) =
      firstSome (fun a => firstSome f (g a)) l := by
  induction l with
  | nil => rfl
  | cons a rest ih =>
    simp only [List.flatMap_cons, firstSome, firstSome_append]
    cases firstSome f (g a) <;> simp [ih, firstSome]

theorem firstSome_none {α β : Type} (f : α → Option β) (l : List α)
    (h : ∀ a ∈ l, f a = none) : firstSome f l = none := by
  induction l with
  | nil => rfl
  | cons a rest ih =>
    simp only [firstSome]
    rw [h a (List.mem_cons_self a rest)]
    exact ih (fun a ha => h a (List.mem_cons_of_mem _ ha))

section SearchLemmas

variable {T : Type}

theorem implItemsLoop_eq (db : HirDatabase) (self : Ty) (name : Option String)
    (callback : Ty → Nat → Option T) (items : List ImplItem) :
    implItemsLoop db self name callback items =
      firstSome (callback self) (implItemsCandidates db name items) := by
  induction items with
  | nil => rfl
  | cons item rest ih =>
    cases item with
    | method f =>
      simp only [implItemsLoop, implItemsCandidates, List.filterMap_cons]
      by_cases h : (nameMatches db name f && db.fnHasSelf f) = true
      · simp only [h, if_pos, firstSome]
        cases callback self f <;> simp [ih, implItemsCandidates]
      · simp only [h]
        simp only [Bool.not_eq_true] at h
        simp [h, ih, implItemsCandidates]
    | other n =>
      simp [implItemsLoop, implItemsCandidates, List.filterMap_cons, ih]

theorem implBlocksLoop_eq (db : HirDatabase) (self : Ty) (name : Option String)
    (callback : Ty → Nat → Option T) (blocks : List ImplRef) :
    implBlocksLoop db self name callback blocks =
      firstSome (callback self)
        (blocks.flatMap (fun b => implItemsCandidates db name (db.implItems b.1 b.2))) := by
  induction blocks with
  | nil => rfl
  | cons b rest ih =>
    simp only [implBlocksLoop, List.flatMap_cons, firstSome_append,
      implItemsLoop_eq]
    cases firstSome (callback self) (implItemsCandidates db name (db.implItems b.1 b.2)) <;>
      simp [ih]

theorem iterateInherentMethods_eq (db : HirDatabase) (self : Ty)
    (name : Option String) (callback : Ty → Nat → Option T) :
    Ty.iterateInherentMethods db self name callback =
      firstSome (callback self) (inherentCandidates db self name) := by
  unfold Ty.iterateInherentMethods inherentCandidates
  cases defCrate db self with
  | none => rfl
  | some krate => simp [implBlocksLoop_eq]

theorem traitItemsLoop_known_eq (db : HirDatabase) (self : Ty) (tr : Nat)
    (name : Option String) (callback : Ty → Nat → Option T)
    (items : List TraitItem) :
    traitItemsLoop db self tr name callback items true =
      firstSome (callback self) (matchingFunctions db name items) := by
  induction items with
  | nil => rfl
  | cons item rest ih =>
    cases item with
    | function m =>
      simp only [traitItemsLoop, matchingFunctions, List.filterMap_cons]
      by_cases h : (nameMatches db name m && db.fnHasSelf m) = true
      · simp only [h, if_pos, firstSome]
        cases callback self m <;> simp [ih, matchingFunctions]
      · simp only [h]
        simp only [Bool.not_eq_true] at h
        simp [h, ih, matchingFunctions]
    | other n =>
      simp [traitItemsLoop, matchingFunctions, List.filterMap_cons, ih]

theorem traitItemsLoop_unknown_eq (db : HirDatabase) (self : Ty) (tr : Nat)
    (name : Option String) (callback : Ty → Nat → Option T)
    (items : List TraitItem) :
    traitItemsLoop db self tr name callback items false =
      if db.implements (probeRef db tr self) then
        firstSome (callback self) (matchingFunctions db name items)
      else none := by
  induction items with
  | nil => cases h : db.implements (probeRef db tr self) <;>
      simp [traitItemsLoop, matchingFunctions, firstSome, h]
  | cons item rest ih =>
    cases item with
    | function m =>
      simp only [traitItemsLoop, matchingFunctions, List.filterMap_cons]
      by_cases h : (nameMatches db name m && db.fnHasSelf m) = true
      · simp only [h, if_pos]
        cases himp : db.implements (probeRef db tr self) with
        | false => simp [himp]
        | true =>
          simp only [himp, if_pos, firstSome]
          cases callback self m <;>
            simp [traitItemsLoop_known_eq, matchingFunctions]
      · simp only [Bool.not_eq_true] at h
        simp only [h]
        rw [ih]
        simp [matchingFunctions, h]
    | other n =>
      simp only [traitItemsLoop, matchingFunctions, List.filterMap_cons]
      rw [ih]
      simp [matchingFunctions]

theorem traitItemsLoop_candidates_eq (db : HirDatabase) (self : Ty) (tr : Nat)
    (name : Option String) (callback : Ty → Nat → Option T) :
    traitItemsLoop db self tr name callback (db.traitItems tr) false =
      firstSome (callback self) (traitItemsCandidates db self tr name) := by
  rw [traitItemsLoop_unknown_eq, traitItemsCandidates]
  cases db.implements (probeRef db tr self) <;> simp [firstSome]

theorem traitsLoop_eq (db : HirDatabase) (self : Ty) (name : Option String)
    (callback : Ty → Nat → Option T) (traits : List Nat) :
    traitsLoop db self name callback traits =
      firstSome (callback self)
        (traits.flatMap (fun tr => traitItemsCandidates db self tr name)) := by
  induction traits with
  | nil => rfl
  | cons tr rest ih =>
    simp only [traitsLoop, List.flatMap_cons, firstSome_append,
      traitItemsLoop_candidates_eq]
    cases firstSome (callback self) (traitItemsCandidates db self tr name) <;>
      simp [ih]

theorem iterateTraitMethodCandidates_eq (db : HirDatabase) (self : Ty)
    (resolver : Resolver) (name : Option String)
    (callback : Ty → Nat → Option T) :
    Ty.iterateTraitMethodCandidates db self resolver name callback =
      firstSome (callback self) (traitCandidates db self name resolver) := by
  unfold Ty.iterateTraitMethodCandidates traitCandidates
  exact traitsLoop_eq db self name callback resolver.traitsInScope

theorem derefLoop_eq (db : HirDatabase) (resolver : Resolver)
    (name : Option String) (callback : Ty → Nat → Option T) (tys : List Ty) :
    derefLoop db resolver name callback tys =
      firstSome (fun p => callback p.1 p.2)
        (tys.flatMap fun derefedTy =>
          (inherentCandidates db derefedTy name
            ++ traitCandidates db derefedTy name resolver).map
              (fun f => (derefedTy, f))) := by
  induction tys with
  | nil => rfl
  | cons t rest ih =>
    simp only [derefLoop, List.flatMap_cons, firstSome_append, firstSome_map,
      List.map_append, iterateInherentMethods_eq,
      iterateTraitMethodCandidates_eq]
    cases firstSome (callback t) (inherentCandidates db t name) <;>
      cases htc : firstSome (callback t) (traitCandidates db t name resolver) <;>
        simp [ih, htc]

theorem iterateMethodCandidates_eq (db : HirDatabase) (self : Ty)
    (resolver : Resolver) (name : Option String)
    (callback : Ty → Nat → Option T) :
    Ty.iterateMethodCandidates db self resolver name callback =
      firstSome (fun p => callback p.1 p.2)
        (methodCandidates db self resolver name) := by
  unfold Ty.iterateMethodCandidates methodCandidates
  exact derefLoop_eq db resolver name callback (db.autoderef self)


theorem traitItemsLoopI_fst (db : HirDatabase) (self : Ty) (tr : Nat)
    (name : Option String) (callback : Ty → Nat → Option T)
    (items : List TraitItem) (known : Bool) :
    (traitItemsLoopI db self tr name callback items known).1 =
      traitItemsLoop db self tr name callback items known := by
  induction items generalizing known with
  | nil => rfl
  | cons item rest ih =>
    cases item with
    | function m =>
      simp only [traitItemsLoopI, traitItemsLoop]
      by_cases h : (nameMatches db name m && db.fnHasSelf m) = true
      · simp only [h, if_pos]
        cases known with
        | true =>
          simp only [if_pos]
          cases callback self m <;> simp [ih]
        | false =>
          simp only [Bool.false_eq_true, if_neg]
          cases himp : db.implements (probeRef db tr self) with
          | false => simp [himp]
          | true =>
            simp only [himp, if_pos]
            cases callback self m <;> simp [ih]
      · simp only [Bool.not_eq_true] at h
        simp [h, ih]
    | other n => simp [traitItemsLoopI, traitItemsLoop, ih]

theorem traitItemsLoopI_probes_known (db : HirDatabase) (self : Ty) (tr : Nat)
    (name : Option String) (callback : Ty → Nat → Option T)
    (items : List TraitItem) :
    (traitItemsLoopI db self tr name callback items true).2.1 = [] := by
  induction items with
  | nil => rfl
  | cons item rest ih =>
    cases item with
    | function m =>
      simp only [traitItemsLoopI]
      by_cases h : (nameMatches db name m && db.fnHasSelf m) = true
      · simp only [h, if_pos]
        cases callback self m <;> simp [ih]
      · simp only [Bool.not_eq_true] at h
        simp [h, ih]
    | other n => simp [traitItemsLoopI, ih]

theorem traitItemsLoopI_probes (db : HirDatabase) (self : Ty) (tr : Nat)
    (name : Option String) (callback : Ty → Nat → Option T)
    (items : List TraitItem) :
    (traitItemsLoopI db self tr name callback items false).2.1 =
      if matchingFunctions db name items = [] then [] else [tr] := by
  induction items with
  | nil => rfl
  | cons item rest ih =>
    cases item with
    | function m =>
      simp only [traitItemsLoopI, matchingFunctions, List.filterMap_cons]
      by_cases h : (nameMatches db name m && db.fnHasSelf m) = true
      · simp only [h, if_pos, Bool.false_eq_true, if_neg]
        cases db.implements (probeRef db tr self) with
        | false => simp
        | true =>
          cases callback self m <;>
            simp [traitItemsLoopI_probes_known]
      · simp only [Bool.not_eq_true] at h
        simp [h, ih, matchingFunctions]
    | other n =>
      simp only [traitItemsLoopI, matchingFunctions, List.filterMap_cons]
      rw [ih]
      simp [matchingFunctions]

theorem traitItemsLoopI_cands_tagged (db : HirDatabase) (self : Ty) (tr : Nat)
    (name : Option String) (callback : Ty → Nat → Option T)
    (items : List TraitItem) (known : Bool) :
    ∀ p ∈ (traitItemsLoopI db self tr name callback items known).2.2,
      p.1 = tr := by
  induction items generalizing known with
  | nil => intro p hp; simp [traitItemsLoopI] at hp
  | cons item rest ih =>
    intro p hp
    cases item with
    | function m =>
      simp only [traitItemsLoopI] at hp
      by_cases h : (nameMatches db name m && db.fnHasSelf m) = true
      · simp only [h, if_pos] at hp
        cases known with
        | true =>
          simp only [if_pos] at hp
          cases hc : callback self m <;> simp [hc] at hp
          · rcases hp with hp | hp
            · simp [hp]
            · exact ih true p hp
          · simp [hp]
        | false =>
          simp only [Bool.false_eq_true, if_neg] at hp
          cases himp : db.implements (probeRef db tr self) <;>
            simp [himp] at hp
          cases hc : callback self m <;> simp [hc] at hp
          · rcases hp with hp | hp
            · simp [hp]
            · exact ih true p hp
          · simp [hp]
      · simp only [Bool.not_eq_true] at h
        simp only [h] at hp
        simp at hp
        exact ih known p hp
    | other n =>
      simp only [traitItemsLoopI] at hp
      exact ih known p hp

theorem traitItemsLoopI_cands_unimplemented (db : HirDatabase) (self : Ty)
    (tr : Nat) (name : Option String) (callback : Ty → Nat → Option T)
    (items : List TraitItem)
    (himp : db.implements (probeRef db tr self) = false) :
    (traitItemsLoopI db self tr name callback items false).2.2 = [] := by
  induction items with
  | nil => rfl
  | cons item rest ih =>
    cases item with
    | function m =>
      simp only [traitItemsLoopI]
      by_cases h : (nameMatches db name m && db.fnHasSelf m) = true
      · simp [h, himp]
      · simp only [Bool.not_eq_true] at h
        simp [h, ih]
    | other n => simp [traitItemsLoopI, ih]

theorem traitsLoopI_fst (db : HirDatabase) (self : Ty) (name : Option String)
    (callback : Ty → Nat → Option T) (traits : List Nat) :
    (traitsLoopI db self name callback traits).1 =
      traitsLoop db self name callback traits := by
  induction traits with
  | nil => rfl
  | cons tr rest ih =>
    simp only [traitsLoopI, traitsLoop, ← traitItemsLoopI_fst]
    cases (traitItemsLoopI db self tr name callback (db.traitItems tr) false).1 <;>
      simp [ih]

theorem traitsLoopI_probes_mem (db : HirDatabase) (self : Ty)
    (name : Option String) (callback : Ty → Nat → Option T) (traits : List Nat) :
    ∀ t ∈ (traitsLoopI db self name callback traits).2.1, t ∈ traits := by
  induction traits with
  | nil => intro t ht; simp [traitsLoopI] at ht
  | cons tr rest ih =>
    intro t ht
    simp only [traitsLoopI] at ht
    cases hres : (traitItemsLoopI db self tr name callback (db.traitItems tr) false).1 with
    | some result =>
      simp only [hres] at ht
      rw [traitItemsLoopI_probes] at ht
      by_cases hm : matchingFunctions db name (db.traitItems tr) = [] <;>
        simp [hm] at ht
      simp [ht]
    | none =>
      simp only [hres] at ht
      rw [traitItemsLoopI_probes] at ht
      simp only [List.mem_append] at ht
      rcases ht with ht | ht
      · by_cases hm : matchingFunctions db name (db.traitItems tr) = [] <;>
          simp [hm] at ht
        simp [ht]
      · exact List.mem_cons_of_mem tr (ih t ht)

theorem traitsLoopI_count_not_mem (db : HirDatabase) (self : Ty)
    (name : Option String) (callback : Ty → Nat → Option T) (traits : List Nat)
    (tr : Nat) (h : tr ∉ traits) :
    ((traitsLoopI db self name callback traits).2.1).count tr = 0 := by
  rw [List.count_eq_zero]
  intro hmem
  exact h (traitsLoopI_probes_mem db self name callback traits tr hmem)

theorem traitItemsLoopI_head_count (db : HirDatabase) (self : Ty)
    (name : Option String) (callback : Ty → Nat → Option T) (t' tr : Nat) :
    ((traitItemsLoopI db self t' name callback (db.traitItems t') false).2.1).count tr =
      if matchingFunctions db name (db.traitItems t') = [] then 0
      else if t' = tr then 1 else 0 := by
  rw [traitItemsLoopI_probes]
  by_cases hm : matchingFunctions db name (db.traitItems t') = []
  · simp [hm]
  · by_cases he : t' = tr
    · subst he; simp [hm]
    · simp [hm, he, List.count_cons]

theorem traitsLoopI_count_le_one (db : HirDatabase) (self : Ty)
    (name : Option String) (callback : Ty → Nat → Option T) (traits : List Nat)
    (hnd : traits.Nodup) (tr : Nat) :
    ((traitsLoopI db self name callback traits).2.1).count tr ≤ 1 := by
  induction traits with
  | nil => simp [traitsLoopI]
  | cons t' rest ih =>
    simp only [List.nodup_cons] at hnd
    obtain ⟨hmem, hnd'⟩ := hnd
    have hhead := traitItemsLoopI_head_count db self name callback t' tr
    simp only [traitsLoopI]
    cases hres : (traitItemsLoopI db self t' name callback (db.traitItems t') false).1 with
    | some result =>
      simp only [hres]
      rw [hhead]
      split
      · simp
      · split <;> simp
    | none =>
      simp only [hres, List.count_append]
      by_cases he : t' = tr
      · subst he
        have hz : ((traitsLoopI db self name callback rest).2.1).count t' = 0 :=
          traitsLoopI_count_not_mem db self name callback rest t' hmem
        rw [hhead, hz]
        by_cases hm : matchingFunctions db name (db.traitItems t') = [] <;> simp [hm]
      · have hz :
            ((traitItemsLoopI db self t' name callback (db.traitItems t') false).2.1).count tr = 0 := by
          rw [hhead]
          by_cases hm : matchingFunctions db name (db.traitItems t') = [] <;>
            simp [hm, he]
        rw [hz]
        simpa using ih hnd'

theorem traitsLoopI_count_exact (db : HirDatabase) (self : Ty)
    (name : Option String) (callback : Ty → Nat → Option T) (traits : List Nat)
    (hnd : traits.Nodup) (tr : Nat)
    (hres : (traitsLoopI db self name callback traits).1 = none)
    (hin : tr ∈ traits)
    (hmatch : matchingFunctions db name (db.traitItems tr) ≠ []) :
    ((traitsLoopI db self name callback traits).2.1).count tr = 1 := by
  induction traits with
  | nil => simp at hin
  | cons t' rest ih =>
    simp only [List.nodup_cons] at hnd
    obtain ⟨hmem, hnd'⟩ := hnd
    have hhead := traitItemsLoopI_head_count db self name callback t' tr
    simp only [traitsLoopI] at hres ⊢
    cases hhd : (traitItemsLoopI db self t' name callback (db.traitItems t') false).1 with
    | some result => simp [hhd] at hres
    | none =>
      simp only [hhd] at hres ⊢
      simp only [List.count_append]
      by_cases he : t' = tr
      · subst he
        have hz : ((traitsLoopI db self name callback rest).2.1).count t' = 0 :=
          traitsLoopI_count_not_mem db self name callback rest t' hmem
        rw [hhead, hz]
        simp [hmatch]
      · have hz :
            ((traitItemsLoopI db self t' name callback (db.traitItems t') false).2.1).count tr = 0 := by
          rw [hhead]
          by_cases hm : matchingFunctions db name (db.traitItems t') = [] <;>
            simp [hm, he]
        have hin' : tr ∈ rest := by
          rcases List.mem_cons.mp hin with h | h
          · exact absurd h.symm he
          · exact h
        rw [hz, ih hnd' hres hin']

theorem traitsLoopI_count_zero_of_no_match (db : HirDatabase) (self : Ty)
    (name : Option String) (callback : Ty → Nat → Option T) (traits : List Nat)
    (tr : Nat)
    (hmatch : matchingFunctions db name (db.traitItems tr) = []) :
    ((traitsLoopI db self name callback traits).2.1).count tr = 0 := by
  induction traits with
  | nil => simp [traitsLoopI]
  | cons t' rest ih =>
    have hz :
        ((traitItemsLoopI db self t' name callback (db.traitItems t') false).2.1).count tr = 0 := by
      rw [traitItemsLoopI_head_count]
      by_cases hm : matchingFunctions db name (db.traitItems t') = []
      · simp [hm]
      · have he : ¬ t' = tr := by
          intro hc
          subst hc
          exact hm hmatch
        simp [hm, he]
    simp only [traitsLoopI]
    cases hres : (traitItemsLoopI db self t' name callback (db.traitItems t') false).1 with
    | some result => simpa [hres] using hz
    | none => simp [hres, List.count_append, hz, ih]

theorem traitsLoopI_no_cand_unimplemented (db : HirDatabase) (self : Ty)
    (name : Option String) (callback : Ty → Nat → Option T) (traits : List Nat)
    (tr : Nat) (himp : db.implements (probeRef db tr self) = false) :
    ∀ f, (tr, f) ∉ (traitsLoopI db self name callback traits).2.2 := by
  induction traits with
  | nil => intro f hf; simp [traitsLoopI] at hf
  | cons t' rest ih =>
    intro f hf
    have hhead : (tr, f) ∉
        (traitItemsLoopI db self t' name callback (db.traitItems t') false).2.2 := by
      by_cases he : t' = tr
      · subst he
        rw [traitItemsLoopI_cands_unimplemented db self t' name callback _ himp]
        simp
      · intro hc
        have := traitItemsLoopI_cands_tagged db self t' name callback
          (db.traitItems t') false (tr, f) hc
        exact he this.symm
    simp only [traitsLoopI] at hf
    cases hres : (traitItemsLoopI db self t' name callback (db.traitItems t') false).1 with
    | some result =>
      simp only [hres] at hf
      exact hhead hf
    | none =>
      simp only [hres, List.mem_append] at hf
      rcases hf with hf | hf
      · exact hhead hf
      · exact ih f hf

end SearchLemmas

theorem getA_insertAppend_same {κ α : Type} [DecidableEq κ] (k : κ) (v : α)
    (l : List (κ × List α)) :
    getA k (insertAppend k v l) = getA k l ++ [v] := by
  induction l with
  | nil => simp [insertAppend, getA]
  | cons p rest ih =>
    obtain ⟨k', vs⟩ := p
    by_cases h : k' = k
    · subst h
      simp [insertAppend, getA]
    · simp [insertAppend, getA, h, ih]

theorem getA_insertAppend_ne {κ α : Type} [DecidableEq κ] (k k' : κ)
    (h : k' ≠ k) (v : α) (l : List (κ × List α)) :
    getA k (insertAppend k' v l) = getA k l := by
  induction l with
  | nil => simp [insertAppend, getA, h]
  | cons p rest ih =>
    obtain ⟨k'', vs⟩ := p
    by_cases h2 : k'' = k'
    · subst h2
      simp [insertAppend, getA, h]
    · by_cases h3 : k'' = k
      · subst h3
        simp [insertAppend, getA, h2]
      · simp [insertAppend, getA, h2, h3, ih]

theorem collectImpl_impls (db : HirDatabase) (st : CrateImplBlocks)
    (moduleId implId : Nat) (fp : TyFingerprint) :
    getA fp (collectImpl db st moduleId implId).impls =
      getA fp st.impls ++
        (if inherentKeyed db fp (moduleId, implId) then [(moduleId, implId)] else []) := by
  cases htr : db.implTargetTrait moduleId implId with
  | some tr => simp [collectImpl, inherentKeyed, htr]
  | none =>
    cases hfp : TyFingerprint.forImpl (db.implTargetTy moduleId implId) with
    | none => simp [collectImpl, inherentKeyed, htr, hfp]
    | some fp' =>
      by_cases h : fp' = fp
      · subst h
        simp [collectImpl, inherentKeyed, htr, hfp, getA_insertAppend_same]
      · simp [collectImpl, inherentKeyed, htr, hfp, h,
          getA_insertAppend_ne fp fp' h]

theorem collectImpl_implsByTrait (db : HirDatabase) (st : CrateImplBlocks)
    (moduleId implId : Nat) (tr : Nat) :
    getA tr (collectImpl db st moduleId implId).implsByTrait =
      getA tr st.implsByTrait ++
        (if db.implTargetTrait moduleId implId = some tr
          then [(moduleId, implId)] else []) := by
  cases htr : db.implTargetTrait moduleId implId with
  | some tr' =>
    by_cases h : tr' = tr
    · subst h
      simp [collectImpl, htr, getA_insertAppend_same]
    · simp [collectImpl, htr, h, getA_insertAppend_ne tr tr' h]
  | none =>
    cases hfp : TyFingerprint.forImpl (db.implTargetTy moduleId implId) <;>
      simp [collectImpl, htr, hfp]

theorem collectModule_impls (db : HirDatabase) (moduleId : Nat)
    (fp : TyFingerprint) (ids : List Nat) (st : CrateImplBlocks) :
    getA fp ((ids.foldl (fun s implId => collectImpl db s moduleId implId) st).impls) =
      getA fp st.impls ++
        ((ids.map (fun i => ((moduleId, i) : ImplRef))).filter (inherentKeyed db fp)) := by
  induction ids generalizing st with
  | nil => simp
  | cons i rest ih =>
    simp only [List.foldl_cons, List.map_cons, List.filter_cons]
    rw [ih, collectImpl_impls]
    by_cases h : inherentKeyed db fp (moduleId, i) = true <;>
      simp [h, List.append_assoc]

mutual

theorem collectRecursive_impls (db : HirDatabase) (fp : TyFingerprint) :
    ∀ (t : ModuleTree) (st : CrateImplBlocks),
      getA fp (collectRecursive db st t).impls =
        getA fp st.impls ++ (preorderImpls db t).filter (inherentKeyed db fp)
  | ModuleTree.mk moduleId children, st => by
    unfold collectRecursive preorderImpls
    rw [collectList_impls db fp children, collectModule_impls]
    simp [List.filter_append, List.append_assoc]

theorem collectList_impls (db : HirDatabase) (fp : TyFingerprint) :
    ∀ (ts : List ModuleTree) (st : CrateImplBlocks),
      getA fp (collectList db st ts).impls =
        getA fp st.impls ++ (preorderImplsList db ts).filter (inherentKeyed db fp)
  | [], st => by simp [collectList, preorderImplsList]
  | t :: ts, st => by
    unfold collectList preorderImplsList
    rw [collectList_impls db fp ts, collectRecursive_impls db fp t]
    simp [List.filter_append, List.append_assoc]

end

theorem lookupImplBlocks_query (db : HirDatabase) (krate : Nat)
    (tree : ModuleTree) (ty : Ty) (fp : TyFingerprint)
    (hroot : db.rootModule krate = some tree)
    (hfp : TyFingerprint.forImpl ty = some fp) :
    (implsInCrateQuery db krate).lookupImplBlocks ty =
      (preorderImpls db tree).filter (inherentKeyed db fp) := by
  simp only [implsInCrateQuery, CrateImplBlocks.lookupImplBlocks, hroot, hfp]
  rw [collectRecursive_impls db fp tree]
  simp [getA]

theorem freshSubstsForTrait_eq (db : HirDatabase) (tr : Nat) (selfTy : Ty) :
    freshSubstsForTrait db tr selfTy =
      selfTy :: (List.range ((db.traitParams tr).length - 1)).map
        (fun i => Ty.infer (InferTy.typeVar (i % 2 ^ 32))) := by
  unfold freshSubstsForTrait
  congr 1
  have h1 : (((db.traitParams tr).drop 1).enum.map
      (fun p => Ty.infer (InferTy.typeVar (p.1 % 2 ^ 32)))) =
      (((db.traitParams tr).drop 1).enum.map Prod.fst).map
        (fun i => Ty.infer (InferTy.typeVar (i % 2 ^ 32))) := by
    rw [List.map_map]
    rfl
  rw [h1, List.enum_map_fst, List.length_drop]

/-- Claim C1: the candidate search visits the autoderef sequence in order,
at each derived type offering all inherent-method candidates before any
trait-method candidate, and returns the first present value produced by the
callback; hence an earlier deref step shadows a later one and, at a fixed
step, inherent candidates shadow trait candidates.  Formally,
`iterate_method_candidates` equals the first acceptance over the ordered
candidate stream `methodCandidates` (per deref step: inherent candidates
then trait candidates). -/
theorem claim_C1 (T : Type) (db : HirDatabase) (self : Ty)
    (resolver : Resolver) (name : Option String)
    (callback : Ty → Nat → Option T) :
    Ty.iterateMethodCandidates db self resolver name callback =
      firstSome (fun p => callback p.1 p.2)
        (methodCandidates db self resolver name) :=
  iterateMethodCandidates_eq db self resolver name callback

/-- Claim C2: during one trait-method lookup pass over a fixed derefed type,
the satisfiability oracle is probed at most once per trait (for a duplicate
free scope), exactly once for a reached trait with a matching method, and an
unimplemented trait contributes no candidate; the instrumented pass projects
to `iterate_trait_method_candidates`. -/
theorem claim_C2 (T : Type) (db : HirDatabase) (self : Ty)
    (resolver : Resolver) (name : Option String)
    (callback : Ty → Nat → Option T) (tr : Nat) :
    ((Ty.iterateTraitMethodCandidatesI db self resolver name callback).1 =
        Ty.iterateTraitMethodCandidates db self resolver name callback)
  ∧ (resolver.traitsInScope.Nodup →
      ((Ty.iterateTraitMethodCandidatesI db self resolver name
          callback).2.1).count tr ≤ 1)
  ∧ (resolver.traitsInScope.Nodup →
      tr ∈ resolver.traitsInScope →
      (Ty.iterateTraitMethodCandidatesI db self resolver name callback).1 = none →
      matchingFunctions db name (db.traitItems tr) ≠ [] →
      ((Ty.iterateTraitMethodCandidatesI db self resolver name
          callback).2.1).count tr = 1)
  ∧ (db.implements (probeRef db tr self) = false →
      ∀ f, (tr, f) ∉
        (Ty.iterateTraitMethodCandidatesI db self resolver name callback).2.2) :=
  ⟨traitsLoopI_fst db self name callback resolver.traitsInScope,
   fun hnd =>
     traitsLoopI_count_le_one db self name callback resolver.traitsInScope hnd tr,
   fun hnd hin hres hmatch =>
     traitsLoopI_count_exact db self name callback resolver.traitsInScope hnd tr
       hres hin hmatch,
   fun himp f =>
     traitsLoopI_no_cand_unimplemented db self name callback
       resolver.traitsInScope tr himp f⟩

/-- Witness for claim C2 on the concrete database: searching `go` over scope
`[8, 7]` probes trait 7 exactly once, and the unimplemented trait 8 offers
no candidate. -/
theorem claim_C2_witness :
    ((Ty.iterateTraitMethodCandidatesI exDB exS exScope (some "go")
        (fun _ _ => (none : Option Nat))).2.1).count 7 = 1
  ∧ (∀ f, (8, f) ∉
      (Ty.iterateTraitMethodCandidatesI exDB exS exScope (some "go")
        (fun _ _ => (none : Option Nat))).2.2) := by
  constructor
  · exact (claim_C2 Nat exDB exS exScope (some "go")
      (fun _ _ => (none : Option Nat)) 7).2.2.1
      (by decide) (by decide) (by decide) (by decide)
  · exact (claim_C2 Nat exDB exS exScope (some "go")
      (fun _ _ => (none : Option Nat)) 8).2.2.2 (by decide)

/-- Claim C3: per impl block processed during index construction, a block
naming a target trait is appended to the trait-keyed map under that trait
(independent of the target type's fingerprint); otherwise the target type's
fingerprint is computed, the block is appended to the fingerprint-keyed map
when it exists, and the state is left unchanged (the block is dropped) when
it does not. -/
theorem claim_C3 (db : HirDatabase) (st : CrateImplBlocks)
    (moduleId implId : Nat) :
    (∀ tr, db.implTargetTrait moduleId implId = some tr →
        (collectImpl db st moduleId implId).implsByTrait =
          insertAppend tr (moduleId, implId) st.implsByTrait ∧
        (collectImpl db st moduleId implId).impls = st.impls)
  ∧ (db.implTargetTrait moduleId implId = none →
      (∀ fp, TyFingerprint.forImpl (db.implTargetTy moduleId implId) = some fp →
          (collectImpl db st moduleId implId).impls =
            insertAppend fp (moduleId, implId) st.impls ∧
          (collectImpl db st moduleId implId).implsByTrait = st.implsByTrait)
      ∧ (TyFingerprint.forImpl (db.implTargetTy moduleId implId) = none →
          collectImpl db st moduleId implId = st)) := by
  refine ⟨?_, ?_⟩
  · intro tr htr
    constructor <;> simp [collectImpl, htr]
  · intro htr
    refine ⟨?_, ?_⟩
    · intro fp hfp
      constructor <;> simp [collectImpl, htr, hfp]
    · intro hfp
      simp [collectImpl, htr, hfp]

/-- Witness for claim C3 on the concrete database: the trait impl `(1, 0)`
goes to the trait-keyed map only, and the fingerprint-free impl `(1, 1)` is
dropped. -/
theorem claim_C3_witness :
    ((collectImpl exDB exEmpty 1 0).implsByTrait =
        insertAppend 7 (1, 0) exEmpty.implsByTrait ∧
      (collectImpl exDB exEmpty 1 0).impls = exEmpty.impls)
  ∧ collectImpl exDB exEmpty 1 1 = exEmpty :=
  ⟨(claim_C3 exDB exEmpty 1 0).1 7 rfl,
   ((claim_C3 exDB exEmpty 1 1).2 rfl).2 rfl⟩

/-- Claim C4: fingerprint extraction succeeds exactly on Applied types and
depends only on the constructor, so `lookup_impl_blocks` returns exactly the
same impl blocks, in the same order, for two Applied types sharing a
constructor but differing in arguments; in particular membership transfers
between them. -/
theorem claim_C4 (ty : Ty) :
    ((TyFingerprint.forImpl ty).isSome = true ↔
      ∃ ctor parameters, ty = Ty.apply ctor parameters)
  ∧ (∀ (ctor : TypeCtor) (args1 args2 : List Ty),
      TyFingerprint.forImpl (Ty.apply ctor args1) =
        TyFingerprint.forImpl (Ty.apply ctor args2))
  ∧ (∀ (cib : CrateImplBlocks) (ctor : TypeCtor) (args1 args2 : List Ty),
      cib.lookupImplBlocks (Ty.apply ctor args1) =
        cib.lookupImplBlocks (Ty.apply ctor args2))
  ∧ (∀ (cib : CrateImplBlocks) (ctor : TypeCtor) (args1 args2 : List Ty)
      (b : ImplRef), b ∈ cib.lookupImplBlocks (Ty.apply ctor args1) →
        b ∈ cib.lookupImplBlocks (Ty.apply ctor args2)) := by
  refine ⟨?_, ?_, ?_, ?_⟩
  · constructor
    · intro h
      cases ty with
      | apply ctor parameters => exact ⟨ctor, parameters, rfl⟩
      | param idx => simp [TyFingerprint.forImpl] at h
      | infer v => simp [TyFingerprint.forImpl] at h
      | unknown => simp [TyFingerprint.forImpl] at h
    · rintro ⟨ctor, parameters, rfl⟩
      rfl
  · intro ctor args1 args2
    rfl
  · intro cib ctor args1 args2
    rfl
  · intro cib ctor args1 args2 b hb
    exact hb

/-- Witness for claim C4: the inherent impl indexed for `Adt 0` applied to
no arguments is found when looking up `Adt 0` applied to a different
argument list. -/
theorem claim_C4_witness :
    (0, 0) ∈ exIndex.lookupImplBlocks (Ty.apply (TypeCtor.adt 0) [Ty.unknown]) :=
  (claim_C4 Ty.unknown).2.2.2 exIndex (TypeCtor.adt 0) [] [Ty.unknown] (0, 0)
    (by decide)

/-- Claim C5: trait-method candidates are gated by scope independently of
implementation existence.  With the declaring trait in scope (and its first
matching method `m`, satisfiability holding, no inherent candidate), 
`lookup_method` returns `m` on the derefed receiver; with an empty trait
scope and no inherent candidates anywhere in the deref chain, it returns
none regardless of what the oracle would answer. -/
theorem claim_C5 :
    (∀ (db : HirDatabase) (self : Ty) (n : String) (resolver : Resolver)
        (tr m : Nat),
        db.autoderef self = [self] →
        inherentCandidates db self (some n) = [] →
        resolver.traitsInScope = [tr] →
        db.implements (probeRef db tr self) = true →
        (matchingFunctions db (some n) (db.traitItems tr)).head? = some m →
        Ty.lookupMethod db self n resolver = some (self, m))
  ∧ (∀ (db : HirDatabase) (self : Ty) (n : String) (resolver : Resolver),
        resolver.traitsInScope = [] →
        (∀ t ∈ db.autoderef self, inherentCandidates db t (some n) = []) →
        Ty.lookupMethod db self n resolver = none) := by
  constructor
  · intro db self n resolver tr m h1 h2 h3 h4 h5
    unfold Ty.lookupMethod
    rw [iterateMethodCandidates_eq]
    unfold methodCandidates
    rw [h1]
    simp only [List.flatMap_cons, List.flatMap_nil, List.append_nil]
    unfold traitCandidates
    rw [h2, h3]
    simp only [List.flatMap_cons, List.flatMap_nil, List.append_nil,
      List.nil_append]
    unfold traitItemsCandidates
    rw [h4]
    simp only [if_true]
    cases hl : matchingFunctions db (some n) (db.traitItems tr) with
    | nil =>
      rw [hl] at h5
      simp at h5
    | cons x xs =>
      rw [hl] at h5
      simp only [List.head?_cons, Option.some.injEq] at h5
      subst h5
      simp [firstSome]
  · intro db self n resolver h1 h2
    unfold Ty.lookupMethod
    rw [iterateMethodCandidates_eq]
    unfold methodCandidates
    rw [firstSome_flatMap]
    apply firstSome_none
    intro t ht
    rw [h2 t ht]
    unfold traitCandidates
    rw [h1]
    simp [firstSome]

/-- Witness for claim C5: on the concrete database, `lookup_method` finds
trait 7's method `go` when trait 7 is in scope, and finds nothing under the
empty scope even though the implementation still exists. -/
theorem claim_C5_witness :
    Ty.lookupMethod exDB exS "go" exScopeTr = some (exS, 1)
  ∧ Ty.lookupMethod exDB exS "go" exScopeEmpty = none := by
  constructor
  · exact claim_C5.1 exDB exS "go" exScopeTr 7 1 rfl rfl rfl rfl (by decide)
  · refine claim_C5.2 exDB exS "go" exScopeEmpty rfl ?_
    intro t ht
    have h := List.mem_singleton.mp ht
    subst h
    rfl

/-- Claim C6: absence of a result is structural.  A type with no resolvable
owning crate yields no inherent candidates; a type with no fingerprint
yields no indexed impl blocks and no inherent candidates; and if the whole
autoderef sequence is exhausted with no callback acceptance the search
returns none. -/
theorem claim_C6 (T : Type) (db : HirDatabase) :
    (∀ (ty : Ty) (name : Option String) (callback : Ty → Nat → Option T),
        defCrate db ty = none →
        Ty.iterateInherentMethods db ty name callback = none)
  ∧ (∀ (cib : CrateImplBlocks) (ty : Ty),
        TyFingerprint.forImpl ty = none → cib.lookupImplBlocks ty = [])
  ∧ (∀ (ty : Ty) (name : Option String),
        TyFingerprint.forImpl ty = none → inherentCandidates db ty name = [])
  ∧ (∀ (self : Ty) (resolver : Resolver) (name : Option String)
        (callback : Ty → Nat → Option T),
        (∀ t f, callback t f = none) →
        Ty.iterateMethodCandidates db self resolver name callback = none) := by
  refine ⟨?_, ?_, ?_, ?_⟩
  · intro ty name callback h
    unfold Ty.iterateInherentMethods
    rw [h]
  · intro cib ty h
    unfold CrateImplBlocks.lookupImplBlocks
    rw [h]
  · intro ty name h
    unfold inherentCandidates
    cases hc : defCrate db ty with
    | none => rfl
    | some krate =>
      simp only [hc]
      unfold CrateImplBlocks.lookupImplBlocks
      rw [h]
      simp
  · intro self resolver name callback h
    rw [iterateMethodCandidates_eq]
    exact firstSome_none _ _ (fun p _ => h p.1 p.2)

/-- Witness for claim C6 on the concrete database, at the shapeless type
`Ty.unknown` and an all-rejecting callback. -/
theorem claim_C6_witness :
    Ty.iterateInherentMethods exDB Ty.unknown (some "foo")
      (fun _ _ => (none : Option Nat)) = none
  ∧ exIndex.lookupImplBlocks Ty.unknown = []
  ∧ inherentCandidates exDB Ty.unknown (some "foo") = []
  ∧ Ty.iterateMethodCandidates exDB Ty.unknown exScopeEmpty (some "foo")
      (fun _ _ => (none : Option Nat)) = none :=
  ⟨(claim_C6 Nat exDB).1 Ty.unknown (some "foo") (fun _ _ => none) rfl,
   (claim_C6 Nat exDB).2.1 exIndex Ty.unknown rfl,
   (claim_C6 Nat exDB).2.2.1 Ty.unknown (some "foo") rfl,
   (claim_C6 Nat exDB).2.2.2 Ty.unknown exScopeEmpty (some "foo")
     (fun _ _ => none) (fun _ _ => rfl)⟩

/-- Claim C7: index construction is deterministic — rebuilding for the same
database and crate yields equal indices — and `lookup_impl_blocks` on the
built index returns, for any fingerprinted type, exactly the inherent impl
blocks with that fingerprint in pre-order module-tree traversal order. -/
theorem claim_C7 (db : HirDatabase) (krate : Nat) :
    implsInCrateQuery db krate = implsInCrateQuery db krate
  ∧ (∀ (tree : ModuleTree) (ty : Ty) (fp : TyFingerprint),
      db.rootModule krate = some tree →
      TyFingerprint.forImpl ty = some fp →
      (implsInCrateQuery db krate).lookupImplBlocks ty =
        (preorderImpls db tree).filter (inherentKeyed db fp)) :=
  ⟨rfl, fun tree ty fp hroot hfp =>
    lookupImplBlocks_query db krate tree ty fp hroot hfp⟩

/-- Witness for claim C7 on the concrete database and its module tree. -/
theorem claim_C7_witness :
    (implsInCrateQuery exDB 0).lookupImplBlocks (Ty.apply (TypeCtor.adt 0) []) =
      (preorderImpls exDB exTree).filter
        (inherentKeyed exDB (TyFingerprint.apply (TypeCtor.adt 0))) :=
  (claim_C7 exDB 0).2 exTree (Ty.apply (TypeCtor.adt 0) [])
    (TyFingerprint.apply (TypeCtor.adt 0)) rfl rfl

theorem rangeMapMod_not_nodup (m : Nat) (hm : 0 < m) :
    ¬ ((List.range (m + 1)).map
        (fun i => Ty.infer (InferTy.typeVar (i % m)))).Nodup := by
  intro hnd
  have h0 : 0 < ((List.range (m + 1)).map
      (fun i => Ty.infer (InferTy.typeVar (i % m)))).length := by
    rw [List.length_map, List.length_range]
    omega
  have h1 : m < ((List.range (m + 1)).map
      (fun i => Ty.infer (InferTy.typeVar (i % m)))).length := by
    rw [List.length_map, List.length_range]
    omega
  have heq : ((List.range (m + 1)).map
        (fun i => Ty.infer (InferTy.typeVar (i % m)))).get ⟨0, h0⟩ =
      ((List.range (m + 1)).map
        (fun i => Ty.infer (InferTy.typeVar (i % m)))).get ⟨m, h1⟩ := by
    simp [List.get_eq_getElem, List.getElem_map, List.getElem_range,
      Nat.mod_self, Nat.zero_mod]
  have hfin := (List.Nodup.get_inj_iff hnd).mp heq
  have hv : (0 : Nat) = m := congrArg Fin.val hfin
  omega

/-- Claim C8 counterexample: the placeholder variable numbers are NOT
always distinct.  The source numbers them `TypeVarId(i as u32)`, and the
cast wraps, so for a trait declaring 2^32 + 2 generic parameters the
placeholders at tail positions 0 and 2^32 both carry variable number 0. -/
theorem claim_C8_counterexample :
    ¬ ((freshSubstsForTrait exDBWide 0 Ty.unknown).drop 1).Nodup := by
  have hlen : (exDBWide.traitParams 0).length = 2 ^ 32 + 2 :=
    List.length_replicate _ _
  have hstep : ∀ k : Nat, k + 2 - 1 = k + 1 := fun k => by omega
  rw [freshSubstsForTrait_eq, List.drop_one, List.tail_cons, hlen, hstep]
  exact rangeMapMod_not_nodup (2 ^ 32) (Nat.two_pow_pos 32)

/-- Claim C8 (amended): the fresh probe substitution has the self type at
position 0 followed by exactly one placeholder inference variable per
remaining declared generic parameter of the trait (the implicit Self slot
excluded), each numbered with its enumeration index truncated to 32 bits;
the numbers are pairwise distinct whenever the trait declares at most 2^32
parameters beyond Self. -/
theorem claim_C8 (db : HirDatabase) (tr : Nat) (selfTy : Ty) :
    freshSubstsForTrait db tr selfTy =
      selfTy :: (List.range ((db.traitParams tr).length - 1)).map
        (fun i => Ty.infer (InferTy.typeVar (i % 2 ^ 32)))
  ∧ (freshSubstsForTrait db tr selfTy).length =
      1 + ((db.traitParams tr).length - 1)
  ∧ ((db.traitParams tr).length - 1 ≤ 2 ^ 32 →
      ((freshSubstsForTrait db tr selfTy).drop 1).Nodup) := by
  refine ⟨freshSubstsForTrait_eq db tr selfTy, ?_, ?_⟩
  · rw [freshSubstsForTrait_eq]
    simp [Nat.add_comm]
  · intro hbound
    rw [freshSubstsForTrait_eq]
    simp only [List.drop_one, List.tail_cons]
    refine List.Nodup.map_on ?_ (List.nodup_range _)
    intro a ha b hb hab
    rw [List.mem_range] at ha hb
    have hab' : a % 2 ^ 32 = b % 2 ^ 32 := by simpa using hab
    have ha' : a % 2 ^ 32 = a := Nat.mod_eq_of_lt (lt_of_lt_of_le ha hbound)
    have hb' : b % 2 ^ 32 = b := Nat.mod_eq_of_lt (lt_of_lt_of_le hb hbound)
    rw [ha', hb'] at hab'
    exact hab'

/-- Witness for claim C8: on the concrete database, trait 7 declares three
parameters (two beyond Self), well under the 32-bit bound, so its two
placeholders are distinct. -/
theorem claim_C8_witness :
    ((freshSubstsForTrait exDB 7 Ty.unknown).drop 1).Nodup :=
  (claim_C8 exDB 7 Ty.unknown).2.2 (by decide)

/-- Claim C9: only types whose head constructor is a nominal ADT resolve an
owning crate; for every other Applied type, inherent-method iteration and
impl-item iteration return none even though the type has a fingerprint. -/
theorem claim_C9 (T : Type) (db : HirDatabase) (ctor : TypeCtor)
    (args : List Ty) (h : isAdtCtor ctor = false) :
    defCrate db (Ty.apply ctor args) = none
  ∧ (TyFingerprint.forImpl (Ty.apply ctor args)).isSome = true
  ∧ (∀ (name : Option String) (callback : Ty → Nat → Option T),
      Ty.iterateInherentMethods db (Ty.apply ctor args) name callback = none)
  ∧ (∀ (callback : ImplItem → Option T),
      Ty.iterateImplItems db (Ty.apply ctor args) callback = none) := by
  cases ctor <;> simp [isAdtCtor] at h <;>
    exact ⟨rfl, rfl, fun _ _ => rfl, fun _ => rfl⟩

/-- Witness for claim C9 at the reference type constructor, which has a
fingerprint but no owning crate. -/
theorem claim_C9_witness :
    defCrate exDB (Ty.apply (TypeCtor.ref false) []) = none
  ∧ (TyFingerprint.forImpl (Ty.apply (TypeCtor.ref false) [])).isSome = true
  ∧ Ty.iterateInherentMethods exDB (Ty.apply (TypeCtor.ref false) [])
      (some "foo") (fun _ _ => (none : Option Nat)) = none
  ∧ Ty.iterateImplItems exDB (Ty.apply (TypeCtor.ref false) [])
      (fun _ => (none : Option Nat)) = none := by
  obtain ⟨h1, h2, h3, h4⟩ :=
    claim_C9 Nat exDB (TypeCtor.ref false) [] (by decide)
  exact ⟨h1, h2, h3 (some "foo") (fun _ _ => none), h4 (fun _ => none)⟩

/-- Claim C10: the satisfiability oracle is never queried for an in-scope
trait none of whose declared function items both pass the name filter and
declare a receiver parameter — such a trait triggers zero probes in the
whole trait-method pass. -/
theorem claim_C10 (T : Type) (db : HirDatabase) (self : Ty)
    (resolver : Resolver) (name : Option String)
    (callback : Ty → Nat → Option T) (tr : Nat)
    (h : matchingFunctions db name (db.traitItems tr) = []) :
    ((Ty.iterateTraitMethodCandidatesI db self resolver name
        callback).2.1).count tr = 0 :=
  traitsLoopI_count_zero_of_no_match db self name callback
    resolver.traitsInScope tr h

/-- Witness for claim C10: trait 8 (whose only method fails the `go` name
filter) is in scope but never probed. -/
theorem claim_C10_witness :
    ((Ty.iterateTraitMethodCandidatesI exDB exS exScope (some "go")
        (fun _ _ => (none : Option Nat))).2.1).count 8 = 0 :=
  claim_C10 Nat exDB exS exScope (some "go")
    (fun _ _ => (none : Option Nat)) 8 (by decide)
